import Mathlib

/-!
Shallow embedding of the terraspec command-line harness (main.go of the
terraspec repository) and proofs about its orchestration, discovery and
path-rendering behaviour.

The embedding follows the source file function by function:
  * `hasErrors`        — tfdiags.Diagnostics.HasErrors
  * `runTestCase`      — runTestCase (per-case pipeline with mock injection)
  * `fatalReport`      — fatalReport
  * `findCase`/`findCases` — test-case discovery
  * `mainRun`          — main (fan-out, fan-in, exit-code derivation)
  * `formatPath`       — formatPath over cty.Path
External engine calls (NewContextOptions, NewContext, ReadSpec,
InjectMockedData, Refresh, Plan, spec.Validate) are opaque collaborators:
their outcomes for one test case are packaged in `EngineBehavior`, and the
per-case pipeline is a function of those outcomes, exactly mirroring the
sequence of calls and early returns in the source.
-/

/-- Severity of a diagnostic: tfdiags has Error and Warning, terraspec adds
Info for successful matches. -/
inductive Severity where
  | error
  | warning
  | info
deriving DecidableEq

/-- One diagnostic: a severity and a human detail message. -/
structure Diagnostic where
  severity : Severity
  detail : String
deriving DecidableEq

def Severity.isError : Severity → Bool
  | Severity.error => true
  | _ => false

/-- tfdiags.Diagnostics.HasErrors: true when any diagnostic has Error severity. -/
def hasErrors (ds : List Diagnostic) : Bool :=
  ds.any (fun d => d.severity.isError)

/-- Pipeline stages of one test case, in the order the source executes them.
`configParsed` marks NewContextOptions returning, `ctxCreated` marks
terraform.NewContext returning. -/
inductive Stage where
  | discovered
  | configParsed
  | ctxCreated
  | specParsed
  | mockInjected
  | refreshed
  | planned
  | validated
deriving DecidableEq

/-- The full stage order as executed by runTestCase in the source. -/
def fullStageOrder : List Stage :=
  [Stage.discovered, Stage.configParsed, Stage.ctxCreated, Stage.specParsed,
   Stage.mockInjected, Stage.refreshed, Stage.planned, Stage.validated]

/-- Position of a stage in the executed order. -/
def stageRank : Stage → Nat
  | Stage.discovered => 0
  | Stage.configParsed => 1
  | Stage.ctxCreated => 2
  | Stage.specParsed => 3
  | Stage.mockInjected => 4
  | Stage.refreshed => 5
  | Stage.planned => 6
  | Stage.validated => 7

/-- filepath.Base: strip trailing slashes, then keep the last
slash-separated component; "" gives "." and an all-slash path gives "/". -/
def filepathBase (p : String) : String :=
  if p = "" then "." else
    let cs := p.data.reverse.dropWhile (fun c => c = '/')
    if cs = [] then "/"
    else String.mk ((cs.takeWhile (fun c => c ≠ '/')).reverse)

/-- Lexicographic order on character lists. -/
def charListLe : List Char → List Char → Bool
  | [], _ => true
  | _ :: _, [] => false
  | c :: cs, d :: ds => if c = d then charListLe cs ds else decide (c < d)

/-- Byte-lexicographic order on names, the order ioutil.ReadDir sorts a
listing by. -/
def nameLe (a b : String) : Bool :=
  charListLe a.data b.data

/-- filepath.Join of a directory and an entry name. -/
def filepathJoin (a b : String) : String :=
  if a = "" then b else a ++ "/" ++ b

/-- type testCase struct { dir, variableFile, specFile string } -/
structure testCase where
  dir : String
  variableFile : String
  specFile : String
deriving DecidableEq

/-- (tc *testCase) name(): filepath.Base(tc.dir). -/
def tcName (tc : testCase) : String :=
  filepathBase tc.dir

/-- type testReport struct { name, plan string; report tfdiags.Diagnostics } -/
structure testReport where
  name : String
  plan : String
  report : List Diagnostic
deriving DecidableEq

/-- Outcomes of the external engine calls made on behalf of one test case:
diagnostics of NewContextOptions, terraform.NewContext, ReadSpec,
InjectMockedData, Refresh and Plan, the number of mocked data sources the
parsed spec declares, the rendered plan text, and the result of
spec.Validate (Except models the (Diagnostics, error) pair: a non-nil Go
error is the .error case). -/
structure EngineBehavior where
  ctxOptionsDiags : List Diagnostic
  newContextDiags : List Diagnostic
  readSpecDiags : List Diagnostic
  specMocks : Nat
  injectDiags : List Diagnostic
  refreshDiags : List Diagnostic
  planDiags : List Diagnostic
  planRender : String
  validateResult : Except String (List Diagnostic)

deriving instance DecidableEq for Except

/-- What one call of runTestCase did: the stages that completed, the reports
sent on the channel, and the log.Fatal message if spec.Validate returned a
non-nil error. -/
structure RunOutcome where
  trace : List Stage
  reports : List testReport
  fatalErr : Option String
deriving DecidableEq

/-- Tail of runTestCase from the Refresh call on; `t` is the trace of the
stages already completed.  Mirrors lines 117-148 of the source: Refresh,
Plan, optional plan rendering, spec.Validate, and the final report send. -/
def runTail (tc : testCase) (eng : EngineBehavior) (displayPlan : Bool)
    (t : List Stage) : RunOutcome :=
  if hasErrors eng.refreshDiags then
    { trace := t,
      reports := [{ name := tcName tc, plan := "", report := eng.refreshDiags }],
      fatalErr := none }
  else if hasErrors eng.planDiags then
    { trace := t ++ [Stage.refreshed],
      reports := [{ name := tcName tc, plan := "", report := eng.planDiags }],
      fatalErr := none }
  else
    let planOutput := if displayPlan then eng.planRender else ""
    match eng.validateResult with
    | Except.error e =>
        { trace := t ++ [Stage.refreshed, Stage.planned],
          reports := [],
          fatalErr := some e }
    | Except.ok vds =>
        { trace := t ++ [Stage.refreshed, Stage.planned, Stage.validated],
          reports := [{ name := tcName tc, plan := planOutput, report := vds }],
          fatalErr := none }

/-- runTestCase: the per-case pipeline.  Each `if hasErrors … then` branch is
one fatalReport early return carrying exactly that engine call's
diagnostics and the still-empty planOutput; mock injection runs only when
the parsed spec declares at least one mock. -/
def runTestCase (tc : testCase) (eng : EngineBehavior) (displayPlan : Bool) :
    RunOutcome :=
  if hasErrors eng.ctxOptionsDiags then
    { trace := [Stage.discovered],
      reports := [{ name := tcName tc, plan := "", report := eng.ctxOptionsDiags }],
      fatalErr := none }
  else if hasErrors eng.newContextDiags then
    { trace := [Stage.discovered, Stage.configParsed],
      reports := [{ name := tcName tc, plan := "", report := eng.newContextDiags }],
      fatalErr := none }
  else if hasErrors eng.readSpecDiags then
    { trace := [Stage.discovered, Stage.configParsed, Stage.ctxCreated],
      reports := [{ name := tcName tc, plan := "", report := eng.readSpecDiags }],
      fatalErr := none }
  else if 0 < eng.specMocks then
    if hasErrors eng.injectDiags then
      { trace := [Stage.discovered, Stage.configParsed, Stage.ctxCreated,
                  Stage.specParsed],
        reports := [{ name := tcName tc, plan := "", report := eng.injectDiags }],
        fatalErr := none }
    else
      runTail tc eng displayPlan
        [Stage.discovered, Stage.configParsed, Stage.ctxCreated,
         Stage.specParsed, Stage.mockInjected]
  else
    runTail tc eng displayPlan
      [Stage.discovered, Stage.configParsed, Stage.ctxCreated, Stage.specParsed]

/-- The first engine-boundary stage whose diagnostics contain an error, with
those diagnostics, following the order runTestCase consults them; the Stage
names the stage whose engine call failed. -/
def firstFatalStage (eng : EngineBehavior) : Option (Stage × List Diagnostic) :=
  if hasErrors eng.ctxOptionsDiags then some (Stage.configParsed, eng.ctxOptionsDiags)
  else if hasErrors eng.newContextDiags then some (Stage.ctxCreated, eng.newContextDiags)
  else if hasErrors eng.readSpecDiags then some (Stage.specParsed, eng.readSpecDiags)
  else if 0 < eng.specMocks ∧ hasErrors eng.injectDiags then
    some (Stage.mockInjected, eng.injectDiags)
  else if hasErrors eng.refreshDiags then some (Stage.refreshed, eng.refreshDiags)
  else if hasErrors eng.planDiags then some (Stage.planned, eng.planDiags)
  else none

/-- One entry of an ioutil.ReadDir listing: a base name and whether it is a
directory. -/
structure FSEntry where
  name : String
  isDir : Bool
deriving DecidableEq

/-- The filesystem as seen through ioutil.ReadDir: a table from directory
path to its listing; a directory absent from the table makes ReadDir fail.
ReadDir returns entries sorted by filename, so each listing stands for the
sorted order. -/
structure FS where
  dirs : List (String × List FSEntry)

/-- ioutil.ReadDir on the modelled filesystem. -/
def FS.readDir (fs : FS) (d : String) : Option (List FSEntry) :=
  (fs.dirs.find? (fun p => p.1 = d)).map (fun p => p.2)

/-- Characters from the last '.' of a name on, empty when there is no dot. -/
def extList : List Char → List Char
  | [] => []
  | c :: rest =>
      let r := extList rest
      if r ≠ [] then r else if c = '.' then c :: rest else []

/-- filepath.Ext: the suffix of the name beginning at its final dot. -/
def filepathExt (s : String) : String :=
  String.mk (extList s.data)

/-- The loop body of findCase: walks the listing in order, remembering the
join of the root with the name of the last non-directory entry whose
extension is .tfvars (first component) and .tfspec (second component). -/
def findCaseLoop (rootDir : String) :
    List FSEntry → String × String → String × String
  | [], acc => acc
  | fi :: rest, (varFile, specFile) =>
      if fi.isDir then findCaseLoop rootDir rest (varFile, specFile)
      else
        let varFile' := if filepathExt fi.name = ".tfvars"
          then filepathJoin rootDir fi.name else varFile
        let specFile' := if filepathExt fi.name = ".tfspec"
          then filepathJoin rootDir fi.name else specFile
        findCaseLoop rootDir rest (varFile', specFile')

/-- findCase: reads a directory; on ReadDir error returns nil; otherwise a
test case exactly when a .tfspec file was seen. -/
def findCase (fs : FS) (rootDir : String) : Option testCase :=
  match fs.readDir rootDir with
  | none => none
  | some fis =>
      let acc := findCaseLoop rootDir fis ("", "")
      if acc.2 ≠ "" then
        some { dir := rootDir, variableFile := acc.1, specFile := acc.2 }
      else none

/-- The loop of findCases over the root listing: one findCase per
subdirectory entry, appending the cases found. -/
def findCasesLoop (fs : FS) (rootDir : String) :
    List FSEntry → List testCase → List testCase
  | [], acc => acc
  | fi :: rest, acc =>
      if !fi.isDir then findCasesLoop fs rootDir rest acc
      else
        match findCase fs (filepathJoin rootDir fi.name) with
        | some tc => findCasesLoop fs rootDir rest (acc ++ [tc])
        | none => findCasesLoop fs rootDir rest acc

/-- findCases: ReadDir of the root (log.Fatal on error, modelled as
Except.error), one findCase per subdirectory, then findCase on the root
itself appended last. -/
def findCases (fs : FS) (rootDir : String) : Except String (List testCase) :=
  match fs.readDir rootDir with
  | none => Except.error "read spec dir failed"
  | some rootFis =>
      let testCases := findCasesLoop fs rootDir rootFis []
      match findCase fs rootDir with
      | some tc => Except.ok (testCases ++ [tc])
      | none => Except.ok testCases

/-- Whether a listing entry is a plain file with extension .tfspec. -/
def isSpecEntry (fi : FSEntry) : Bool :=
  !fi.isDir && (filepathExt fi.name == ".tfspec")

/-- Whether a listing entry is a plain file with extension .tfvars. -/
def isVarsEntry (fi : FSEntry) : Bool :=
  !fi.isDir && (filepathExt fi.name == ".tfvars")

/-- The last entry of a listing satisfying a predicate, if any — the entry
whose value survives the last-write-wins loop of findCase. -/
def lastMatch (p : FSEntry → Bool) : List FSEntry → Option FSEntry
  | [] => none
  | fi :: rest =>
      match lastMatch p rest with
      | some x => some x
      | none => if p fi then some fi else none

/-- Whether a directory's listing directly contains a non-directory entry
with extension .tfspec (false when ReadDir fails). -/
def hasSpec (fs : FS) (d : String) : Bool :=
  match fs.readDir d with
  | some fis => fis.any isSpecEntry
  | none => false

/-- Result of main: either a log.Fatal process abort, or os.Exit with the
final exit code and the reports the aggregation loop consumed. -/
inductive MainResult where
  | fatal (msg : String)
  | exit (code : Nat) (reports : List testReport)
deriving DecidableEq

/-- main: discover cases (log.Fatal when the listing fails or no case is
found), run every case, abort if any case hit log.Fatal while computing its
report, otherwise collect all reports — the channel is closed only after
every task is done, so the loop consumes every case's reports — and exit 1
exactly when some consumed report has errors.  `engOf i` is the engine's
behaviour for the i-th discovered case. -/
def mainRun (fs : FS) (specDir : String) (displayPlan : Bool)
    (engOf : Nat → EngineBehavior) : MainResult :=
  match findCases fs specDir with
  | Except.error e => MainResult.fatal e
  | Except.ok testCases =>
      if testCases.length = 0 then MainResult.fatal "No test case found"
      else
        let outcomes := testCases.enum.map
          (fun p => runTestCase p.2 (engOf p.1) displayPlan)
        match outcomes.findSome? (fun o => o.fatalErr) with
        | some e => MainResult.fatal e
        | none =>
            let reports := (outcomes.map (fun o => o.reports)).flatten
            MainResult.exit
              (if reports.any (fun r => hasErrors r.report) then 1 else 0)
              reports

/-- Key of a cty IndexStep: a cty number (a big.Float, embedded as a
rational) or a value of another type such as a string. -/
inductive IndexKey where
  | num (q : ℚ)
  | str (s : String)
deriving DecidableEq

/-- One step of a cty.Path. -/
inductive PathStep where
  | getAttr (name : String)
  | index (key : IndexKey)
deriving DecidableEq

/-- Truncation toward zero, as big.Float.Int64 performs it: the numerator
T-divided by the (positive) denominator. -/
def truncRat (q : ℚ) : Int :=
  Int.tdiv q.num (Int.ofNat q.den)

/-- big.Float.Int64: truncate toward zero and saturate to the int64 range,
with the accuracy result discarded by the caller. -/
def int64Of (q : ℚ) : Int :=
  let t := truncRat q
  if t < -(2 ^ 63) then -(2 ^ 63)
  else if 2 ^ 63 - 1 < t then 2 ^ 63 - 1
  else t

/-- The loop of formatPath: `i` is the position in the path, `sb` the string
builder.  A GetAttrStep writes a '.' separator when it is not the first
step, then the name; an IndexStep writes '[', the key truncated to int64 by
AsBigFloat().Int64(), and ']'; AsBigFloat panics on a non-number key, which
the embedding surfaces as none. -/
def formatPathAux : Nat → List PathStep → String → Option String
  | _, [], sb => some sb
  | i, PathStep.getAttr name :: rest, sb =>
      formatPathAux (i + 1) rest ((if 0 < i then sb ++ "." else sb) ++ name)
  | i, PathStep.index key :: rest, sb =>
      match key with
      | IndexKey.num q =>
          formatPathAux (i + 1) rest
            (sb ++ "[" ++ toString (int64Of q) ++ "]")
      | IndexKey.str _ => none

/-- formatPath over a cty.Path. -/
def formatPath (path : List PathStep) : Option String :=
  formatPathAux 0 path ""

/-- Whether every index step of a path carries a numeric key. -/
def numericPath (path : List PathStep) : Bool :=
  path.all (fun s =>
    match s with
    | PathStep.index (IndexKey.str _) => false
    | _ => true)

/-- A concrete test case, as discovery would build it from spec/case1. -/
def tcEx : testCase :=
  { dir := "spec/case1", variableFile := "", specFile := "spec/case1/a.tfspec" }

/-- A concrete Error-severity diagnostic. -/
def errDiag : Diagnostic := { severity := Severity.error, detail := "plan failed" }

/-- A concrete Info-severity diagnostic, as a successful match produces. -/
def infoDiag : Diagnostic := { severity := Severity.info, detail := "value matched" }

/-- An engine run in which every stage succeeds and the spec declares no
mock. -/
def engOk : EngineBehavior :=
  { ctxOptionsDiags := [], newContextDiags := [], readSpecDiags := [],
    specMocks := 0, injectDiags := [], refreshDiags := [], planDiags := [],
    planRender := "", validateResult := Except.ok [infoDiag] }

/-- An engine run in which every stage succeeds and the spec declares one
mocked data source. -/
def engMockOk : EngineBehavior :=
  { ctxOptionsDiags := [], newContextDiags := [], readSpecDiags := [],
    specMocks := 1, injectDiags := [], refreshDiags := [], planDiags := [],
    planRender := "", validateResult := Except.ok [infoDiag] }

/-- An engine run whose Plan call fails with an error diagnostic. -/
def engPlanFail : EngineBehavior :=
  { ctxOptionsDiags := [], newContextDiags := [], readSpecDiags := [],
    specMocks := 0, injectDiags := [], refreshDiags := [], planDiags := [errDiag],
    planRender := "", validateResult := Except.ok [] }

/-- An engine run whose spec.Validate call returns a non-nil error. -/
def engValidateErr : EngineBehavior :=
  { ctxOptionsDiags := [], newContextDiags := [], readSpecDiags := [],
    specMocks := 0, injectDiags := [], refreshDiags := [], planDiags := [],
    planRender := "", validateResult := Except.error "internal validation error" }

/-- A spec directory holding one scenario subdirectory with one spec file. -/
def fsEx : FS :=
  { dirs := [("spec", [{ name := "case1", isDir := true }]),
             ("spec/case1", [{ name := "a.tfspec", isDir := false }])] }

/-- A spec directory holding two scenario subdirectories. -/
def fsTwo : FS :=
  { dirs := [("spec", [{ name := "bad", isDir := true },
                       { name := "good", isDir := true }]),
             ("spec/bad", [{ name := "b.tfspec", isDir := false }]),
             ("spec/good", [{ name := "g.tfspec", isDir := false }])] }

/-- A spec directory whose listing is empty: zero test cases. -/
def fsEmpty : FS := { dirs := [("spec", [])] }

/-- A scenario directory directly containing two .tfspec and two .tfvars
files, listed in sorted order. -/
def fsMulti : FS :=
  { dirs := [("spec", [{ name := "sub", isDir := true }]),
             ("spec/sub", [{ name := "a.tfspec", isDir := false },
                           { name := "a.tfvars", isDir := false },
                           { name := "b.tfspec", isDir := false },
                           { name := "b.tfvars", isDir := false }])] }

/-- Engine behaviour table: every case succeeds. -/
def engOfOk : Nat → EngineBehavior := fun _ => engOk

/-- Engine behaviour table for fsTwo: case 0 (directory bad) fails at Plan,
case 1 (directory good) succeeds. -/
def engOfTwo : Nat → EngineBehavior := fun i => if i = 0 then engPlanFail else engOk

/-- C1 (amended): every per-case trace is a subsequence of the order
Discovered, ConfigParsed, CtxCreated, SpecParsed, MockInjected, Refreshed,
Planned, Validated — the spec file is parsed directly after context
creation and before mock injection, refresh and plan, not after the plan. -/
theorem C1_pipeline_order (tc : testCase) (eng : EngineBehavior) (dp : Bool) :
    List.Sublist (runTestCase tc eng dp).trace fullStageOrder := by
  unfold runTestCase runTail
  split_ifs <;> dsimp only <;>
    first
      | decide
      | (cases eng.validateResult <;> dsimp only <;> decide)

/-- C1 (counterexample): in a concrete run in which every stage succeeds and
the spec declares one mock, SpecParsed appears in the trace strictly before
Planned, so the spec file is not parsed only after the plan has been
computed. -/
theorem C1_counterexample :
    Stage.specParsed ∈ (runTestCase tcEx engMockOk false).trace ∧
    Stage.planned ∈ (runTestCase tcEx engMockOk false).trace ∧
    ¬ ((runTestCase tcEx engMockOk false).trace.indexOf Stage.planned <
        (runTestCase tcEx engMockOk false).trace.indexOf Stage.specParsed) := by
  decide

/-- C6: when the parsed spec declares at least one mocked data source, the
mock-injection stage completes before the refresh stage and before the plan
stage whenever those stages run. -/
theorem C6_mock_injected_first (tc : testCase) (eng : EngineBehavior)
    (dp : Bool) (hm : 0 < eng.specMocks) :
    (Stage.refreshed ∈ (runTestCase tc eng dp).trace →
      Stage.mockInjected ∈ (runTestCase tc eng dp).trace ∧
      (runTestCase tc eng dp).trace.indexOf Stage.mockInjected <
        (runTestCase tc eng dp).trace.indexOf Stage.refreshed) ∧
    (Stage.planned ∈ (runTestCase tc eng dp).trace →
      Stage.mockInjected ∈ (runTestCase tc eng dp).trace ∧
      (runTestCase tc eng dp).trace.indexOf Stage.mockInjected <
        (runTestCase tc eng dp).trace.indexOf Stage.planned) := by
  unfold runTestCase runTail
  split_ifs <;> dsimp only <;>
    first
      | decide
      | omega
      | (cases eng.validateResult <;> dsimp only <;> decide)

/-- C6 (witness): the ordering holds in the concrete all-success run with
one mock. -/
theorem C6_witness :
    (Stage.refreshed ∈ (runTestCase tcEx engMockOk false).trace →
      Stage.mockInjected ∈ (runTestCase tcEx engMockOk false).trace ∧
      (runTestCase tcEx engMockOk false).trace.indexOf Stage.mockInjected <
        (runTestCase tcEx engMockOk false).trace.indexOf Stage.refreshed) ∧
    (Stage.planned ∈ (runTestCase tcEx engMockOk false).trace →
      Stage.mockInjected ∈ (runTestCase tcEx engMockOk false).trace ∧
      (runTestCase tcEx engMockOk false).trace.indexOf Stage.mockInjected <
        (runTestCase tcEx engMockOk false).trace.indexOf Stage.planned) :=
  C6_mock_injected_first tcEx engMockOk false (by decide)

/-- C7: attribute-path rendering separates attribute steps with '.', writes
'[n]' directly after the parent step for index steps, and renders the path
rule, [2], tags, env exactly as the string rule[2].tags.env. -/
theorem C7_format_path_rendering :
    formatPath [PathStep.getAttr "rule", PathStep.index (IndexKey.num 2),
        PathStep.getAttr "tags", PathStep.getAttr "env"] =
      some "rule[2].tags.env" ∧
    (∀ a b : String,
      formatPath [PathStep.getAttr a, PathStep.getAttr b] =
        some (a ++ "." ++ b)) ∧
    (∀ (a : String) (q : ℚ) (b : String),
      formatPath [PathStep.getAttr a, PathStep.index (IndexKey.num q),
          PathStep.getAttr b] =
        some (a ++ "[" ++ toString (int64Of q) ++ "]" ++ "." ++ b)) := by
  refine ⟨by decide, ?_, ?_⟩
  · intro a b
    show some ((("" ++ a) ++ ".") ++ b) = some (a ++ "." ++ b)
    rw [String.empty_append]
  · intro a q b
    show some (((((("" ++ a) ++ "[") ++ toString (int64Of q)) ++ "]") ++ ".") ++ b) =
      some (a ++ "[" ++ toString (int64Of q) ++ "]" ++ "." ++ b)
    rw [String.empty_append]

/-- Helper for C10: on a path whose index keys are all numeric, the
formatPath loop always produces a string, from any position and builder. -/
theorem formatPathAux_isSome :
    ∀ (path : List PathStep), numericPath path = true →
      ∀ (i : Nat) (sb : String), (formatPathAux i path sb).isSome = true := by
  intro path
  induction path with
  | nil => intro _ i sb; rfl
  | cons s rest ih =>
      intro h i sb
      simp only [numericPath, List.all_cons, Bool.and_eq_true] at h
      cases s with
      | getAttr name => exact ih h.2 (i + 1) _
      | index key =>
          cases key with
          | num q => exact ih h.2 (i + 1) _
          | str s => simp at h

/-- C10: path rendering is total for every path whose index-step keys are
numeric, a numeric key being rendered as its value truncated toward zero
with the conversion accuracy discarded; an index step carrying a
non-numeric key is outside the guarantee. -/
theorem C10_numeric_paths_total (path : List PathStep)
    (h : numericPath path = true) :
    (∃ s, formatPath path = some s) ∧
    formatPath [PathStep.index (IndexKey.str "key")] = none ∧
    formatPath [PathStep.index (IndexKey.num (mkRat 5 2))] = some "[2]" ∧
    formatPath [PathStep.index (IndexKey.num (mkRat (-5) 2))] = some "[-2]" := by
  refine ⟨?_, by decide, by decide, by decide⟩
  exact Option.isSome_iff_exists.mp (formatPathAux_isSome path h 0 "")

/-- C10 (witness): totality and truncation evaluated on the concrete path
a[2] built from the numeric key 5/2. -/
theorem C10_witness :
    (∃ s, formatPath [PathStep.getAttr "a",
        PathStep.index (IndexKey.num (mkRat 5 2))] = some s) ∧
    formatPath [PathStep.index (IndexKey.str "key")] = none ∧
    formatPath [PathStep.index (IndexKey.num (mkRat 5 2))] = some "[2]" ∧
    formatPath [PathStep.index (IndexKey.num (mkRat (-5) 2))] = some "[-2]" :=
  C10_numeric_paths_total
    [PathStep.getAttr "a", PathStep.index (IndexKey.num (mkRat 5 2))] (by decide)

/-- Joining a directory with a non-empty entry name never gives the empty
string. -/
theorem filepathJoin_ne_empty (r n : String) (hn : n ≠ "") :
    filepathJoin r n ≠ "" := by
  unfold filepathJoin
  split_ifs with hr
  · exact hn
  · intro hcontra
    have hlen := congrArg String.length hcontra
    rw [String.length_append, String.length_append] at hlen
    have h1 : ("/" : String).length = 1 := rfl
    have h0 : ("" : String).length = 0 := rfl
    rw [h1, h0] at hlen
    omega

/-- An entry matching the .tfspec extension has a non-empty name. -/
theorem specEntry_name_ne_empty (fi : FSEntry) (h : isSpecEntry fi = true) :
    fi.name ≠ "" := by
  intro hn
  unfold isSpecEntry at h
  rw [Bool.and_eq_true, beq_iff_eq] at h
  rw [hn] at h
  exact absurd h.2 (by decide)

/-- lastMatch finds nothing exactly when no entry satisfies the predicate. -/
theorem lastMatch_eq_none_iff (p : FSEntry → Bool) :
    ∀ l : List FSEntry, lastMatch p l = none ↔ l.any p = false := by
  intro l
  induction l with
  | nil => simp [lastMatch]
  | cons fi rest ih =>
      simp only [lastMatch, List.any_cons]
      cases hrest : lastMatch p rest with
      | some x =>
          simp only [Bool.or_eq_false_iff]
          constructor
          · intro hcontra; exact absurd hcontra (by simp)
          · intro ⟨_, hr⟩; exact absurd (ih.mpr hr) (by simp [hrest])
      | none =>
          have hr := ih.mp hrest
          cases hp : p fi <;> simp [hp, hr]

/-- The entry lastMatch returns satisfies the predicate. -/
theorem lastMatch_pred (p : FSEntry → Bool) :
    ∀ (l : List FSEntry) (x : FSEntry), lastMatch p l = some x → p x = true := by
  intro l
  induction l with
  | nil => intro x h; exact absurd h (by simp [lastMatch])
  | cons fi rest ih =>
      intro x h
      simp only [lastMatch] at h
      cases hrest : lastMatch p rest with
      | some y =>
          rw [hrest] at h
          cases h
          exact ih _ hrest
      | none =>
          rw [hrest] at h
          by_cases hp : p fi = true
          · rw [if_pos hp] at h
            cases h
            exact hp
          · rw [if_neg hp] at h
            exact absurd h (by simp)

/-- Unfolding lemma for lastMatch on a cons cell. -/
theorem lastMatch_cons (p : FSEntry → Bool) (fi : FSEntry) (rest : List FSEntry) :
    lastMatch p (fi :: rest) =
      match lastMatch p rest with
      | some x => some x
      | none => if p fi then some fi else none := rfl

/-- The spec-file component computed by the findCase loop is the join of the
directory with the name of the last .tfspec entry of the listing, keeping
the initial value when there is none. -/
theorem findCaseLoop_snd (rootDir : String) :
    ∀ (fis : List FSEntry) (v s : String),
      (findCaseLoop rootDir fis (v, s)).2 =
        match lastMatch isSpecEntry fis with
        | some fi => filepathJoin rootDir fi.name
        | none => s := by
  intro fis
  induction fis with
  | nil => intro v s; rfl
  | cons fi rest ih =>
      intro v s
      rw [lastMatch_cons]
      by_cases hd : fi.isDir = true
      · have hspec : isSpecEntry fi = false := by simp [isSpecEntry, hd]
        have hloop : findCaseLoop rootDir (fi :: rest) (v, s) =
            findCaseLoop rootDir rest (v, s) := by
          simp only [findCaseLoop, if_pos hd]
        rw [hloop, ih v s, hspec]
        cases hrest : lastMatch isSpecEntry rest <;> simp
      · have hloop : findCaseLoop rootDir (fi :: rest) (v, s) =
            findCaseLoop rootDir rest
              (if filepathExt fi.name = ".tfvars" then filepathJoin rootDir fi.name
                 else v,
               if filepathExt fi.name = ".tfspec" then filepathJoin rootDir fi.name
                 else s) := by
          simp only [findCaseLoop, if_neg hd]
        rw [hloop, ih]
        cases hrest : lastMatch isSpecEntry rest with
        | some x => simp
        | none =>
            have hspec : isSpecEntry fi = (filepathExt fi.name == ".tfspec") := by
              simp [isSpecEntry, hd]
            rw [hspec]
            by_cases hs : filepathExt fi.name = ".tfspec"
            · simp [hs]
            · simp [hs]

/-- The variables-file component computed by the findCase loop is the join
of the directory with the name of the last .tfvars entry of the listing,
keeping the initial value when there is none. -/
theorem findCaseLoop_fst (rootDir : String) :
    ∀ (fis : List FSEntry) (v s : String),
      (findCaseLoop rootDir fis (v, s)).1 =
        match lastMatch isVarsEntry fis with
        | some fi => filepathJoin rootDir fi.name
        | none => v := by
  intro fis
  induction fis with
  | nil => intro v s; rfl
  | cons fi rest ih =>
      intro v s
      rw [lastMatch_cons]
      by_cases hd : fi.isDir = true
      · have hvars : isVarsEntry fi = false := by simp [isVarsEntry, hd]
        have hloop : findCaseLoop rootDir (fi :: rest) (v, s) =
            findCaseLoop rootDir rest (v, s) := by
          simp only [findCaseLoop, if_pos hd]
        rw [hloop, ih v s, hvars]
        cases hrest : lastMatch isVarsEntry rest <;> simp
      · have hloop : findCaseLoop rootDir (fi :: rest) (v, s) =
            findCaseLoop rootDir rest
              (if filepathExt fi.name = ".tfvars" then filepathJoin rootDir fi.name
                 else v,
               if filepathExt fi.name = ".tfspec" then filepathJoin rootDir fi.name
                 else s) := by
          simp only [findCaseLoop, if_neg hd]
        rw [hloop, ih]
        cases hrest : lastMatch isVarsEntry rest with
        | some x => simp
        | none =>
            have hvars : isVarsEntry fi = (filepathExt fi.name == ".tfvars") := by
              simp [isVarsEntry, hd]
            rw [hvars]
            by_cases hv : filepathExt fi.name = ".tfvars"
            · simp [hv]
            · simp [hv]

/-- findCase resolved through the listing: it returns a case exactly when a
.tfspec entry exists, the case's spec file being the last .tfspec entry and
its variables file the last .tfvars entry or empty. -/
theorem findCase_eq (fs : FS) (rootDir : String) (fis : List FSEntry)
    (h : fs.readDir rootDir = some fis) :
    findCase fs rootDir =
      match lastMatch isSpecEntry fis with
      | some fi =>
          some { dir := rootDir,
                 variableFile :=
                   match lastMatch isVarsEntry fis with
                   | some fv => filepathJoin rootDir fv.name
                   | none => "",
                 specFile := filepathJoin rootDir fi.name }
      | none => none := by
  unfold findCase
  rw [h]
  dsimp only
  rw [findCaseLoop_fst rootDir fis "" "", findCaseLoop_snd rootDir fis "" ""]
  cases hspec : lastMatch isSpecEntry fis with
  | none => simp
  | some fi =>
      have hname : fi.name ≠ "" :=
        specEntry_name_ne_empty fi (lastMatch_pred isSpecEntry fis fi hspec)
      have hjoin : filepathJoin rootDir fi.name ≠ "" :=
        filepathJoin_ne_empty rootDir fi.name hname
      simp [hjoin]

/-- findCase succeeds exactly when the directory directly contains a
.tfspec file; the presence of a .tfvars file plays no part. -/
theorem findCase_isSome (fs : FS) (d : String) :
    (findCase fs d).isSome = hasSpec fs d := by
  unfold hasSpec
  cases h : fs.readDir d with
  | none =>
      unfold findCase
      rw [h]
      rfl
  | some fis =>
      rw [findCase_eq fs d fis h]
      cases hspec : lastMatch isSpecEntry fis with
      | none => simp [(lastMatch_eq_none_iff _ _).mp hspec]
      | some fi =>
          have hany : fis.any isSpecEntry = true := by
            cases hany : fis.any isSpecEntry
            · exact absurd hspec (by simp [(lastMatch_eq_none_iff _ _).mpr hany])
            · rfl
          simp [hany]

/-- The case findCase returns carries the directory it was asked about. -/
theorem findCase_dir (fs : FS) (d : String) (tc : testCase)
    (h : findCase fs d = some tc) : tc.dir = d := by
  unfold findCase at h
  cases hr : fs.readDir d with
  | none => rw [hr] at h; exact absurd h (by simp)
  | some fis =>
      rw [hr] at h
      dsimp only at h
      by_cases hcond : (findCaseLoop d fis ("", "")).2 ≠ ""
      · rw [if_pos hcond] at h
        cases h
        rfl
      · rw [if_neg hcond] at h
        exact absurd h (by simp)

/-- The findCases loop is the filterMap of findCase over the subdirectory
entries of the root listing, appended to the accumulator. -/
theorem findCasesLoop_eq (fs : FS) (rootDir : String) :
    ∀ (fis : List FSEntry) (acc : List testCase),
      findCasesLoop fs rootDir fis acc =
        acc ++ fis.filterMap (fun fi =>
          if fi.isDir then findCase fs (filepathJoin rootDir fi.name) else none) := by
  intro fis
  induction fis with
  | nil => intro acc; simp [findCasesLoop]
  | cons fi rest ih =>
      intro acc
      by_cases hd : fi.isDir = true
      · have hloop : findCasesLoop fs rootDir (fi :: rest) acc =
            match findCase fs (filepathJoin rootDir fi.name) with
            | some tc => findCasesLoop fs rootDir rest (acc ++ [tc])
            | none => findCasesLoop fs rootDir rest acc := by
          simp only [findCasesLoop, hd, Bool.not_true, Bool.false_eq_true,
            if_false]
        rw [hloop]
        cases hc : findCase fs (filepathJoin rootDir fi.name) with
        | some tc => simp [ih, List.filterMap_cons, hd, hc]
        | none => simp [ih, List.filterMap_cons, hd, hc]
      · have hdf : fi.isDir = false := by
          cases hbool : fi.isDir
          · rfl
          · exact absurd hbool hd
        have hloop : findCasesLoop fs rootDir (fi :: rest) acc =
            findCasesLoop fs rootDir rest acc := by
          simp only [findCasesLoop, hdf]
          rfl
        rw [hloop, ih]
        simp [List.filterMap_cons, hdf]

/-- Mapping each discovered case to its directory turns the subdirectory
filterMap into the list of subdirectories that directly hold a .tfspec
file. -/
theorem filterMap_dirs (fs : FS) (rootDir : String) :
    ∀ fis : List FSEntry,
      (fis.filterMap (fun fi =>
          if fi.isDir then findCase fs (filepathJoin rootDir fi.name) else none)).map
        (fun tc => tc.dir) =
      (fis.filter (fun fi =>
          fi.isDir && hasSpec fs (filepathJoin rootDir fi.name))).map
        (fun fi => filepathJoin rootDir fi.name) := by
  intro fis
  induction fis with
  | nil => rfl
  | cons fi rest ih =>
      by_cases hd : fi.isDir = true
      · cases hc : findCase fs (filepathJoin rootDir fi.name) with
        | some tc =>
            have hspec : hasSpec fs (filepathJoin rootDir fi.name) = true := by
              rw [← findCase_isSome, hc]
              rfl
            have hdir := findCase_dir fs (filepathJoin rootDir fi.name) tc hc
            simp [List.filterMap_cons, List.filter_cons, hd, hc, hspec, hdir, ih]
        | none =>
            have hspec : hasSpec fs (filepathJoin rootDir fi.name) = false := by
              rw [← findCase_isSome, hc]
              rfl
            simp [List.filterMap_cons, List.filter_cons, hd, hc, hspec, ih]
      · have hdf : fi.isDir = false := by
          cases hbool : fi.isDir
          · rfl
          · exact absurd hbool hd
        simp [List.filterMap_cons, List.filter_cons, hdf, ih]

/-- C4: discovery returns one test case per immediate subdirectory of the
spec directory that directly contains a .tfspec file, plus one for the spec
directory itself when it directly contains one; a directory without a
.tfspec file yields no case, and whether a case exists never depends on a
.tfvars file being present. -/
theorem C4_discovery (fs : FS) (root : String) (fis : List FSEntry)
    (h : fs.readDir root = some fis) :
    ∃ cases, findCases fs root = Except.ok cases ∧
      cases.map (fun tc => tc.dir) =
        (fis.filter (fun fi =>
            fi.isDir && hasSpec fs (filepathJoin root fi.name))).map
          (fun fi => filepathJoin root fi.name) ++
        (if hasSpec fs root then [root] else []) ∧
      ∀ d', (findCase fs d').isSome = hasSpec fs d' := by
  unfold findCases
  rw [h]
  dsimp only
  rw [findCasesLoop_eq fs root fis []]
  cases hc : findCase fs root with
  | some tc =>
      have hspec : hasSpec fs root = true := by
        rw [← findCase_isSome, hc]
        rfl
      have hdir := findCase_dir fs root tc hc
      refine ⟨_, rfl, ?_, fun d' => findCase_isSome fs d'⟩
      simp [filterMap_dirs fs root fis, hspec, hdir]
  | none =>
      have hspec : hasSpec fs root = false := by
        rw [← findCase_isSome, hc]
        rfl
      refine ⟨_, rfl, ?_, fun d' => findCase_isSome fs d'⟩
      simp [filterMap_dirs fs root fis, hspec]

/-- C4 (witness): discovery on a concrete spec directory with one scenario
subdirectory holding a spec file. -/
theorem C4_witness :
    ∃ cases, findCases fsEx "spec" = Except.ok cases ∧
      cases.map (fun tc => tc.dir) =
        (([{ name := "case1", isDir := true }] : List FSEntry).filter (fun fi =>
            fi.isDir && hasSpec fsEx (filepathJoin "spec" fi.name))).map
          (fun fi => filepathJoin "spec" fi.name) ++
        (if hasSpec fsEx "spec" then ["spec"] else []) ∧
      ∀ d', (findCase fsEx d').isSome = hasSpec fsEx d' :=
  C4_discovery fsEx "spec" [{ name := "case1", isDir := true }] (by decide)

/-- C9: when a scenario directory directly contains several .tfspec (or
.tfvars) files, findCase returns the one occurring last in the sorted
listing ReadDir produces, and reports nothing about the earlier ones. -/
theorem C9_last_listed_file_wins (fs : FS) (d : String) (fis : List FSEntry)
    (fi : FSEntry)
    (h : fs.readDir d = some fis)
    (hsorted : List.Pairwise (fun a b => nameLe a.name b.name = true) fis)
    (hspec : lastMatch isSpecEntry fis = some fi) :
    ∃ tc, findCase fs d = some tc ∧
      tc.specFile = filepathJoin d fi.name ∧
      ∀ fv, lastMatch isVarsEntry fis = some fv →
        tc.variableFile = filepathJoin d fv.name := by
  rw [findCase_eq fs d fis h, hspec]
  refine ⟨_, rfl, rfl, ?_⟩
  intro fv hv
  rw [hv]

/-- C9 (witness): with a.tfspec, a.tfvars, b.tfspec, b.tfvars listed in
sorted order, the case built for the directory carries b.tfspec and
b.tfvars, the later entries. -/
theorem C9_witness :
    ∃ tc, findCase fsMulti "spec/sub" = some tc ∧
      tc.specFile = filepathJoin "spec/sub" "b.tfspec" ∧
      ∀ fv, lastMatch isVarsEntry
          [{ name := "a.tfspec", isDir := false },
           { name := "a.tfvars", isDir := false },
           { name := "b.tfspec", isDir := false },
           { name := "b.tfvars", isDir := false }] = some fv →
        tc.variableFile = filepathJoin "spec/sub" fv.name :=
  C9_last_listed_file_wins fsMulti "spec/sub"
    [{ name := "a.tfspec", isDir := false },
     { name := "a.tfvars", isDir := false },
     { name := "b.tfspec", isDir := false },
     { name := "b.tfvars", isDir := false }]
    { name := "b.tfspec", isDir := false }
    (by decide) (by decide) (by decide)

/-- findSome? returns none when the function returns none on every
element. -/
theorem findSome?_eq_none_of_all {α β : Type} (f : α → Option β) :
    ∀ l : List α, (∀ x ∈ l, f x = none) → l.findSome? f = none := by
  intro l
  induction l with
  | nil => intro _; rfl
  | cons a rest ih =>
      intro h
      have ha := h a (by simp)
      simp only [List.findSome?]
      rw [ha]
      exact ih (fun x hx => h x (by simp [hx]))

/-- A findSome? success comes from some element of the list. -/
theorem exists_of_findSome?_some {α β : Type} (f : α → Option β) (b : β) :
    ∀ l : List α, l.findSome? f = some b → ∃ x ∈ l, f x = some b := by
  intro l
  induction l with
  | nil => intro hcontra; exact absurd hcontra (by simp [List.findSome?])
  | cons a rest ih =>
      intro h
      simp only [List.findSome?] at h
      cases hfa : f a with
      | some c =>
          rw [hfa] at h
          cases h
          exact ⟨a, by simp, hfa⟩
      | none =>
          rw [hfa] at h
          obtain ⟨x, hx, hfx⟩ := ih h
          exact ⟨x, by simp [hx], hfx⟩

/-- When findSome? finds nothing, the function returns none everywhere. -/
theorem all_none_of_findSome?_none {α β : Type} (f : α → Option β) :
    ∀ l : List α, l.findSome? f = none → ∀ x ∈ l, f x = none := by
  intro l
  induction l with
  | nil => intro _ x hx; exact absurd hx (by simp)
  | cons a rest ih =>
      intro h x hx
      simp only [List.findSome?] at h
      cases hfa : f a with
      | some c => rw [hfa] at h; exact absurd h (by simp)
      | none =>
          rw [hfa] at h
          rcases List.mem_cons.mp hx with hxa | hxr
          · rw [hxa]; exact hfa
          · exact ih h x hxr

/-- A per-case run that did not hit log.Fatal sends exactly one report. -/
theorem runTestCase_reports_one (tc : testCase) (eng : EngineBehavior)
    (dp : Bool) (h : (runTestCase tc eng dp).fatalErr = none) :
    (runTestCase tc eng dp).reports.length = 1 := by
  unfold runTestCase runTail at h ⊢
  split_ifs at h ⊢ <;> dsimp only at h ⊢ <;>
    first
      | rfl
      | (cases hv : eng.validateResult <;> simp_all)

/-- runTestCase hits log.Fatal exactly when every engine-boundary stage
passed and spec.Validate returned a non-nil error. -/
theorem runTestCase_fatalErr_some_iff (tc : testCase) (eng : EngineBehavior)
    (dp : Bool) (e : String) :
    (runTestCase tc eng dp).fatalErr = some e ↔
      firstFatalStage eng = none ∧ eng.validateResult = Except.error e := by
  unfold runTestCase runTail firstFatalStage
  split_ifs <;> (try dsimp only) <;>
    (cases hv : eng.validateResult <;> simp_all)

/-- main with a non-empty case list and no log.Fatal in any case exits with
the aggregated reports and the derived code. -/
theorem mainRun_exit_eq (fs : FS) (sd : String) (dp : Bool)
    (engOf : Nat → EngineBehavior) (cases : List testCase)
    (h : findCases fs sd = Except.ok cases) (hne : cases ≠ [])
    (hfat : ∀ p ∈ cases.enum, (runTestCase p.2 (engOf p.1) dp).fatalErr = none) :
    mainRun fs sd dp engOf =
      MainResult.exit
        (if (((cases.enum.map (fun p => runTestCase p.2 (engOf p.1) dp)).map
              (fun o => o.reports)).flatten.any (fun r => hasErrors r.report))
          then 1 else 0)
        (((cases.enum.map (fun p => runTestCase p.2 (engOf p.1) dp)).map
          (fun o => o.reports)).flatten) := by
  unfold mainRun
  rw [h]
  dsimp only
  rw [if_neg (fun h0 => hne (List.length_eq_zero.mp h0))]
  have hnone : (cases.enum.map (fun p => runTestCase p.2 (engOf p.1) dp)).findSome?
      (fun o => o.fatalErr) = none := by
    apply findSome?_eq_none_of_all
    intro o ho
    obtain ⟨p, hp, rfl⟩ := List.mem_map.mp ho
    exact hfat p hp
  rw [hnone]

/-- A member satisfying the predicate makes List.any true. -/
theorem any_eq_true_of_mem {α : Type} (p : α → Bool) :
    ∀ (l : List α) (x : α), x ∈ l → p x = true → l.any p = true := by
  intro l
  induction l with
  | nil => intro x hx _; exact absurd hx (by simp)
  | cons a rest ih =>
      intro x hx hp
      rcases List.mem_cons.mp hx with hxa | hxr
      · rw [List.any_cons, ← hxa, hp]
        rfl
      · rw [List.any_cons, ih x hxr hp]
        simp

/-- A true List.any exhibits a member satisfying the predicate. -/
theorem exists_mem_of_any_eq_true {α : Type} (p : α → Bool) :
    ∀ l : List α, l.any p = true → ∃ x ∈ l, p x = true := by
  intro l
  induction l with
  | nil => intro hcontra; exact absurd hcontra (by simp)
  | cons a rest ih =>
      intro h
      rw [List.any_cons] at h
      cases hpa : p a with
      | true => exact ⟨a, by simp, hpa⟩
      | false =>
          rw [hpa] at h
          obtain ⟨x, hx, hpx⟩ := ih (by simpa using h)
          exact ⟨x, by simp [hx], hpx⟩

/-- C2: when discovery succeeds with at least one case and no case hits
log.Fatal, the process exits, its reports are the aggregation of every
case's reports — the channel is closed only after all tasks complete, so
the code is derived from the full collection — and the exit code is 1
exactly when some report carries an Error-severity diagnostic and 0
exactly when none does. -/
theorem C2_exit_code (fs : FS) (sd : String) (dp : Bool)
    (engOf : Nat → EngineBehavior) (cases : List testCase)
    (h : findCases fs sd = Except.ok cases) (hne : cases ≠ [])
    (hfat : ∀ p ∈ cases.enum, (runTestCase p.2 (engOf p.1) dp).fatalErr = none) :
    ∃ c rs, mainRun fs sd dp engOf = MainResult.exit c rs ∧
      rs = ((cases.enum.map (fun p => runTestCase p.2 (engOf p.1) dp)).map
        (fun o => o.reports)).flatten ∧
      (c = 1 ↔ ∃ r ∈ rs, hasErrors r.report = true) ∧
      (c = 0 ↔ ∀ r ∈ rs, hasErrors r.report = false) := by
  have hmain := mainRun_exit_eq fs sd dp engOf cases h hne hfat
  cases hany : (((cases.enum.map (fun p => runTestCase p.2 (engOf p.1) dp)).map
      (fun o => o.reports)).flatten.any (fun r => hasErrors r.report)) with
  | true =>
      rw [if_pos hany] at hmain
      refine ⟨1, _, hmain, rfl, ?_, ?_⟩
      · exact ⟨fun _ => exists_mem_of_any_eq_true _ _ hany, fun _ => rfl⟩
      · constructor
        · intro h10; exact absurd h10 (by decide)
        · intro hall
          obtain ⟨r, hr, hrt⟩ := exists_mem_of_any_eq_true _ _ hany
          rw [hall r hr] at hrt
          exact absurd hrt (by decide)
  | false =>
      rw [if_neg (fun hcontra => by rw [hany] at hcontra; exact absurd hcontra (by decide))] at hmain
      refine ⟨0, _, hmain, rfl, ?_, ?_⟩
      · constructor
        · intro h01; exact absurd h01 (by decide)
        · rintro ⟨r, hr, hrt⟩
          have hx := any_eq_true_of_mem (fun x => hasErrors x.report) _ r hr hrt
          rw [hany] at hx
          exact absurd hx (by decide)
      · refine ⟨fun _ => ?_, fun _ => rfl⟩
        intro r hr
        cases hrb : hasErrors r.report with
        | false => rfl
        | true =>
            have hx := any_eq_true_of_mem (fun x => hasErrors x.report) _ r hr hrb
            rw [hany] at hx
            exact absurd hx (by decide)

/-- C2 (witness): one discovered case, all stages succeed, exit code 0. -/
theorem C2_witness :
    ∃ c rs, mainRun fsEx "spec" false engOfOk = MainResult.exit c rs ∧
      rs = ((([tcEx] : List testCase).enum.map
          (fun p => runTestCase p.2 (engOfOk p.1) false)).map
        (fun o => o.reports)).flatten ∧
      (c = 1 ↔ ∃ r ∈ rs, hasErrors r.report = true) ∧
      (c = 0 ↔ ∀ r ∈ rs, hasErrors r.report = false) :=
  C2_exit_code fsEx "spec" false engOfOk [tcEx] (by decide) (by decide)
    (by decide)

/-- The flattening of singleton report lists has one element per list. -/
theorem flatten_singleton_lengths :
    ∀ l : List (List testReport), (∀ x ∈ l, x.length = 1) →
      l.flatten.length = l.length := by
  intro l
  induction l with
  | nil => intro _; rfl
  | cons a rest ih =>
      intro h
      rw [List.flatten_cons, List.length_append, h a (by simp),
        ih (fun x hx => h x (by simp [hx]))]
      simp [Nat.add_comm]

/-- C8: with no log.Fatal, every discovered case contributes exactly one
report, the aggregator consumes the concatenation of exactly those
reports, and the report count equals the case count — a failing case
cannot suppress another case's report. -/
theorem C8_one_report_per_case (fs : FS) (sd : String) (dp : Bool)
    (engOf : Nat → EngineBehavior) (cases : List testCase)
    (h : findCases fs sd = Except.ok cases) (hne : cases ≠ [])
    (hfat : ∀ p ∈ cases.enum, (runTestCase p.2 (engOf p.1) dp).fatalErr = none) :
    ∃ c rs, mainRun fs sd dp engOf = MainResult.exit c rs ∧
      rs = ((cases.enum.map (fun p => runTestCase p.2 (engOf p.1) dp)).map
        (fun o => o.reports)).flatten ∧
      (∀ p ∈ cases.enum, (runTestCase p.2 (engOf p.1) dp).reports.length = 1) ∧
      rs.length = cases.length := by
  have hmain := mainRun_exit_eq fs sd dp engOf cases h hne hfat
  refine ⟨_, _, hmain, rfl, ?_, ?_⟩
  · intro p hp
    exact runTestCase_reports_one p.2 (engOf p.1) dp (hfat p hp)
  · rw [flatten_singleton_lengths]
    · simp
    · intro x hx
      obtain ⟨o, ho, rfl⟩ := List.mem_map.mp hx
      obtain ⟨p, hp, rfl⟩ := List.mem_map.mp ho
      exact runTestCase_reports_one p.2 (engOf p.1) dp (hfat p hp)

/-- C8 (witness): two scenario directories, the first failing at Plan and
the second succeeding; both reports appear, one per case. -/
theorem C8_witness :
    ∃ c rs, mainRun fsTwo "spec" false engOfTwo = MainResult.exit c rs ∧
      rs = ((([{ dir := "spec/bad", variableFile := "",
                 specFile := "spec/bad/b.tfspec" },
               { dir := "spec/good", variableFile := "",
                 specFile := "spec/good/g.tfspec" }] : List testCase).enum.map
          (fun p => runTestCase p.2 (engOfTwo p.1) false)).map
        (fun o => o.reports)).flatten ∧
      (∀ p ∈ ([{ dir := "spec/bad", variableFile := "",
                 specFile := "spec/bad/b.tfspec" },
               { dir := "spec/good", variableFile := "",
                 specFile := "spec/good/g.tfspec" }] : List testCase).enum,
        (runTestCase p.2 (engOfTwo p.1) false).reports.length = 1) ∧
      rs.length = ([{ dir := "spec/bad", variableFile := "",
                      specFile := "spec/bad/b.tfspec" },
                    { dir := "spec/good", variableFile := "",
                      specFile := "spec/good/g.tfspec" }] : List testCase).length :=
  C8_one_report_per_case fsTwo "spec" false engOfTwo
    [{ dir := "spec/bad", variableFile := "", specFile := "spec/bad/b.tfspec" },
     { dir := "spec/good", variableFile := "", specFile := "spec/good/g.tfspec" }]
    (by decide) (by decide) (by decide)

/-- C5: with discovery completed, the run aborts process-fatally exactly
when zero test cases were discovered or some case's spec.Validate returned
a non-nil error (every engine-boundary failure instead yields a report);
in the zero-case situation the result does not depend on any case's engine
behaviour, because no case is ever started. -/
theorem C5_process_fatal (fs : FS) (sd : String) (dp : Bool)
    (engOf : Nat → EngineBehavior) (cases : List testCase)
    (h : findCases fs sd = Except.ok cases) :
    (cases = [] →
      mainRun fs sd dp engOf = MainResult.fatal "No test case found" ∧
      ∀ engOf', mainRun fs sd dp engOf' = mainRun fs sd dp engOf) ∧
    (cases ≠ [] →
      ((∃ e, mainRun fs sd dp engOf = MainResult.fatal e) ↔
        ∃ p ∈ cases.enum, (runTestCase p.2 (engOf p.1) dp).fatalErr ≠ none)) ∧
    (∀ (tc : testCase) (eng : EngineBehavior),
      (∃ e, (runTestCase tc eng dp).fatalErr = some e) ↔
        (firstFatalStage eng = none ∧
          ∃ e, eng.validateResult = Except.error e)) := by
  refine ⟨?_, ?_, ?_⟩
  · intro hnil
    subst hnil
    have hfatal : ∀ engOf'' : Nat → EngineBehavior,
        mainRun fs sd dp engOf'' = MainResult.fatal "No test case found" := by
      intro engOf''
      unfold mainRun
      rw [h]
      rfl
    exact ⟨hfatal engOf, fun engOf' => by rw [hfatal engOf', hfatal engOf]⟩
  · intro hne
    constructor
    · rintro ⟨e, he⟩
      by_contra hnot
      push_neg at hnot
      have hfat : ∀ p ∈ cases.enum,
          (runTestCase p.2 (engOf p.1) dp).fatalErr = none := hnot
      rw [mainRun_exit_eq fs sd dp engOf cases h hne hfat] at he
      exact MainResult.noConfusion he
    · rintro ⟨p, hp, hpf⟩
      unfold mainRun
      rw [h]
      dsimp only
      rw [if_neg (fun h0 => hne (List.length_eq_zero.mp h0))]
      cases hfind : (cases.enum.map
          (fun q => runTestCase q.2 (engOf q.1) dp)).findSome?
          (fun o => o.fatalErr) with
      | some e => exact ⟨e, rfl⟩
      | none =>
          have hall := all_none_of_findSome?_none (fun o => o.fatalErr) _ hfind
            (runTestCase p.2 (engOf p.1) dp)
            (List.mem_map_of_mem (fun q => runTestCase q.2 (engOf q.1) dp) hp)
          exact absurd hall hpf
  · intro tc eng
    constructor
    · rintro ⟨e, he⟩
      obtain ⟨hff, hval⟩ := (runTestCase_fatalErr_some_iff tc eng dp e).mp he
      exact ⟨hff, e, hval⟩
    · rintro ⟨hff, e, hval⟩
      exact ⟨e, (runTestCase_fatalErr_some_iff tc eng dp e).mpr ⟨hff, hval⟩⟩

/-- C5 (witness): a spec directory with an empty listing discovers zero
cases and the run aborts fatally, independently of engine behaviour. -/
theorem C5_witness :
    (([] : List testCase) = [] →
      mainRun fsEmpty "spec" false engOfOk = MainResult.fatal "No test case found" ∧
      ∀ engOf', mainRun fsEmpty "spec" false engOf' =
        mainRun fsEmpty "spec" false engOfOk) ∧
    (([] : List testCase) ≠ [] →
      ((∃ e, mainRun fsEmpty "spec" false engOfOk = MainResult.fatal e) ↔
        ∃ p ∈ ([] : List testCase).enum,
          (runTestCase p.2 (engOfOk p.1) false).fatalErr ≠ none)) ∧
    (∀ (tc : testCase) (eng : EngineBehavior),
      (∃ e, (runTestCase tc eng false).fatalErr = some e) ↔
        (firstFatalStage eng = none ∧
          ∃ e, eng.validateResult = Except.error e)) :=
  C5_process_fatal fsEmpty "spec" false engOfOk [] (by decide)

/-- The refresh/plan tail of the pipeline under a first fatal stage found
at the Refresh or Plan boundary: one report with that stage's diagnostics,
no log.Fatal, every executed stage ranked before the failed one. -/
theorem runTail_first_fatal (tc : testCase) (eng : EngineBehavior) (dp : Bool)
    (t : List Stage) (s : Stage) (d : List Diagnostic)
    (ht : ∀ s' ∈ t, stageRank s' < stageRank Stage.refreshed)
    (h : (if hasErrors eng.refreshDiags then
            some (Stage.refreshed, eng.refreshDiags)
          else if hasErrors eng.planDiags then
            some (Stage.planned, eng.planDiags)
          else none) = some (s, d)) :
    (runTail tc eng dp t).reports =
      [{ name := tcName tc, plan := "", report := d }] ∧
    (runTail tc eng dp t).fatalErr = none ∧
    ∀ s' ∈ (runTail tc eng dp t).trace, stageRank s' < stageRank s := by
  unfold runTail
  by_cases h5 : hasErrors eng.refreshDiags = true
  · rw [if_pos h5] at h
    cases h
    rw [if_pos h5]
    exact ⟨rfl, rfl, ht⟩
  · rw [if_neg h5] at h
    by_cases h6 : hasErrors eng.planDiags = true
    · rw [if_pos h6] at h
      cases h
      rw [if_neg h5, if_pos h6]
      refine ⟨rfl, rfl, ?_⟩
      intro s' hs'
      rcases List.mem_append.mp hs' with hst | hsr
      · exact Nat.lt_trans (ht s' hst) (by decide)
      · have hs'eq : s' = Stage.refreshed := List.mem_singleton.mp hsr
        rw [hs'eq]
        decide
    · rw [if_neg h6] at h
      exact absurd h (by simp)

/-- C3: whenever some engine-boundary stage is the first to yield
error-carrying diagnostics, the case emits exactly one report holding
exactly those diagnostics, does not hit log.Fatal, and every stage in its
trace ranks strictly before the failed stage — all later stages are
skipped. -/
theorem C3_engine_stage_fatal (tc : testCase) (eng : EngineBehavior) (dp : Bool)
    (s : Stage) (d : List Diagnostic)
    (h : firstFatalStage eng = some (s, d)) :
    (runTestCase tc eng dp).reports =
      [{ name := tcName tc, plan := "", report := d }] ∧
    (runTestCase tc eng dp).fatalErr = none ∧
    ∀ s' ∈ (runTestCase tc eng dp).trace, stageRank s' < stageRank s := by
  unfold firstFatalStage at h
  by_cases h1 : hasErrors eng.ctxOptionsDiags = true
  · rw [if_pos h1] at h
    cases h
    unfold runTestCase
    rw [if_pos h1]
    exact ⟨rfl, rfl, by dsimp only; decide⟩
  · rw [if_neg h1] at h
    by_cases h2 : hasErrors eng.newContextDiags = true
    · rw [if_pos h2] at h
      cases h
      unfold runTestCase
      rw [if_neg h1, if_pos h2]
      exact ⟨rfl, rfl, by dsimp only; decide⟩
    · rw [if_neg h2] at h
      by_cases h3 : hasErrors eng.readSpecDiags = true
      · rw [if_pos h3] at h
        cases h
        unfold runTestCase
        rw [if_neg h1, if_neg h2, if_pos h3]
        exact ⟨rfl, rfl, by dsimp only; decide⟩
      · rw [if_neg h3] at h
        by_cases hm : 0 < eng.specMocks
        · by_cases hj : hasErrors eng.injectDiags = true
          · rw [if_pos ⟨hm, hj⟩] at h
            cases h
            unfold runTestCase
            rw [if_neg h1, if_neg h2, if_neg h3, if_pos hm, if_pos hj]
            exact ⟨rfl, rfl, by dsimp only; decide⟩
          · rw [if_neg (fun hc => hj hc.2)] at h
            have hrun : runTestCase tc eng dp =
                runTail tc eng dp
                  [Stage.discovered, Stage.configParsed, Stage.ctxCreated,
                   Stage.specParsed, Stage.mockInjected] := by
              unfold runTestCase
              rw [if_neg h1, if_neg h2, if_neg h3, if_pos hm, if_neg hj]
            rw [hrun]
            exact runTail_first_fatal tc eng dp _ s d (by decide) h
        · rw [if_neg (fun hc => hm hc.1)] at h
          have hrun : runTestCase tc eng dp =
              runTail tc eng dp
                [Stage.discovered, Stage.configParsed, Stage.ctxCreated,
                 Stage.specParsed] := by
            unfold runTestCase
            rw [if_neg h1, if_neg h2, if_neg h3, if_neg hm]
          rw [hrun]
          exact runTail_first_fatal tc eng dp _ s d (by decide) h

/-- C3 (witness): a concrete case failing at the Plan stage reports exactly
the plan diagnostics, skips validation, and does not abort the process. -/
theorem C3_witness :
    (runTestCase tcEx engPlanFail false).reports =
      [{ name := tcName tcEx, plan := "", report := [errDiag] }] ∧
    (runTestCase tcEx engPlanFail false).fatalErr = none ∧
    ∀ s' ∈ (runTestCase tcEx engPlanFail false).trace,
      stageRank s' < stageRank Stage.planned :=
  C3_engine_stage_fatal tcEx engPlanFail false Stage.planned [errDiag]
    (by decide)
